import Mathlib

/-!
Shallow embedding of the BMP image-processing toolkit
(src/Quantization_Resolution.cpp, src/Image_cropping.cpp,
src/flip_horizontally.cpp) and proofs about it.

Bytes are modelled as natural numbers (uint8_t values are below 256; the
quantization map only decreases a value, so no wrap-around can occur and
no reduction mod 256 is needed).  A pixel buffer (a C++ vector of uint8_t)
is a list of naturals; reading element i is List.getD i 0 and writing is
List.set, which agree with in-bounds vector access.  All C++ int
arithmetic relevant to the claims is on nonnegative values below 2^31,
where int arithmetic agrees with Nat arithmetic.
-/

namespace BMP

/-! Definitions: shallow embedding of the three C++ source files. -/

/-- Row stride with 4-byte alignment.  The source computes
((width * bytesPerPixel + 3) & (~3)) in int arithmetic; for a nonnegative
int value m, m & (~3) clears the two lowest bits, i.e. equals (m / 4) * 4. -/
def strideOf (width bytesPerPixel : Nat) : Nat :=
  (width * bytesPerPixel + 3) / 4 * 4

/-- Body of the innermost loop of quantizePixelData
(src/Quantization_Resolution.cpp line 63):
colorValue = (colorValue / factor) * factor, in C++ int division. -/
def quantizeChannel (factor v : Nat) : Nat :=
  v / factor * factor

/-- Innermost loop of quantizePixelData (lines 57-64): quantize the first
three bytes (B,G,R) of the pixel at column x of the row starting at byte
offset rowBase, leaving any fourth (alpha) byte untouched. -/
def quantizePixel (factor rowBase bytesPerPixel x : Nat) (pd : List Nat) : List Nat :=
  (List.range 3).foldl
    (fun pd b =>
      pd.set (rowBase + x * bytesPerPixel + b)
        (quantizeChannel factor (pd.getD (rowBase + x * bytesPerPixel + b) 0)))
    pd

/-- Middle loop of quantizePixelData (lines 54-65): all pixels of one row. -/
def quantizeRow (factor rowBase bytesPerPixel width : Nat) (pd : List Nat) : List Nat :=
  (List.range width).foldl (fun pd x => quantizePixel factor rowBase bytesPerPixel x pd) pd

/-- Outer loop of quantizePixelData (lines 50-66): all rows, row y starting
at byte offset y * rowSize. -/
def quantizeLoop (factor bytesPerPixel width height rowSize : Nat) (pd : List Nat) : List Nat :=
  (List.range height).foldl
    (fun pd y => quantizeRow factor (y * rowSize) bytesPerPixel width pd) pd

/-- quantizePixelData from src/Quantization_Resolution.cpp (lines 39-67).
levels = 1 << quantizationBits and factor = 255 / (levels - 1) in C++ int
arithmetic.  When levels - 1 = 0 the division 255 / 0 is undefined
behaviour (a crash in practice); likewise the per-byte division
colorValue / factor when factor = 0 and the loop body runs at least once
(height and width both positive).  Both are modelled as none; otherwise
the function returns the updated buffer. -/
def quantizePixelData (pixelData : List Nat)
    (bytesPerPixel width height rowSize quantizationBits : Nat) : Option (List Nat) :=
  let levels := 2 ^ quantizationBits
  if levels - 1 = 0 then none
  else
    let factor := 255 / (levels - 1)
    if factor = 0 ∧ 0 < height ∧ 0 < width then none
    else some (quantizeLoop factor bytesPerPixel width height rowSize pixelData)

/-- Swap of two byte positions of the buffer (std::swap of two vector
elements, src/flip_horizontally.cpp line 44). -/
def swapBytes (l : List Nat) (i j : Nat) : List Nat :=
  let a := l.getD i 0
  let b := l.getD j 0
  (l.set i b).set j a

/-- Innermost loop of flipHorizontally (lines 42-45): swap all
bytesPerPixel bytes of the pixel at column x with the pixel at column
width - x - 1, inside the row starting at byte offset rowBase. -/
def flipPixel (rowBase width bytesPerPixel x : Nat) (pd : List Nat) : List Nat :=
  (List.range bytesPerPixel).foldl
    (fun pd b =>
      swapBytes pd (rowBase + x * bytesPerPixel + b)
        (rowBase + (width - x - 1) * bytesPerPixel + b)) pd

/-- Middle loop of flipHorizontally (lines 41-46): x runs over
[0, width / 2). -/
def flipRow (rowBase width bytesPerPixel : Nat) (pd : List Nat) : List Nat :=
  (List.range (width / 2)).foldl
    (fun pd x => flipPixel rowBase width bytesPerPixel x pd) pd

/-- flipHorizontally from src/flip_horizontally.cpp (lines 35-48): flip
every row in place, row y starting at byte offset y * rowSize. -/
def flipHorizontally (pixelData : List Nat) (width height rowSize bytesPerPixel : Nat) :
    List Nat :=
  (List.range height).foldl
    (fun pd y => flipRow (y * rowSize) width bytesPerPixel pd) pixelData

/-- Proof-only restatement of the inner loop of flipHorizontally: swap the
m bytes starting at lbase with the m bytes starting at rbase. -/
def swapRange (lbase rbase m : Nat) (pd : List Nat) : List Nat :=
  (List.range m).foldl (fun pd b => swapBytes pd (lbase + b) (rbase + b)) pd

/-- Proof-only restatement of the middle loop of flipHorizontally stopped
after the first k columns. -/
def flipRowAux (rowBase width bytesPerPixel k : Nat) (pd : List Nat) : List Nat :=
  (List.range k).foldl (fun pd x => flipPixel rowBase width bytesPerPixel x pd) pd

/-- memcpy of len bytes from src starting at srcOff into dst starting at
dstOff (src/Image_cropping.cpp line 55).  Every use by the claims is
in-bounds on both sides; an out-of-bounds C++ call would be undefined
behaviour. -/
def copyBytes (dst : List Nat) (dstOff : Nat) (src : List Nat) (srcOff len : Nat) : List Nat :=
  dst.take dstOff ++ ((src.drop srcOff).take len ++ dst.drop (dstOff + len))

/-- Row-copy loop of cropImage (src/Image_cropping.cpp lines 43-56): for
each destination row j, copy cropWidth * bytesPerPixel bytes from source
row y + j starting at byte x * bytesPerPixel into destination row j
starting at byte 0.  The parameter k is the number of rows copied so far
(k = cropHeight in cropImage itself). -/
def cropRows (inputPixelData : List Nat)
    (bytesPerPixel rowSize x y cropWidth croppedRowSize k : Nat) (dst : List Nat) : List Nat :=
  (List.range k).foldl
    (fun dst j =>
      copyBytes dst (j * croppedRowSize) inputPixelData
        ((y + j) * rowSize + x * bytesPerPixel) (cropWidth * bytesPerPixel)) dst

/-- cropImage from src/Image_cropping.cpp (lines 36-57): the destination
buffer is resized to croppedRowSize * cropHeight zero bytes
(vector resize value-initializes) and filled row by row. -/
def cropImage (inputPixelData : List Nat)
    (originalWidth originalHeight bytesPerPixel rowSize x y cropWidth cropHeight : Nat) :
    List Nat :=
  let croppedRowSize := strideOf cropWidth bytesPerPixel
  cropRows inputPixelData bytesPerPixel rowSize x y cropWidth croppedRowSize cropHeight
    (List.replicate (croppedRowSize * cropHeight) 0)

/-- Little-endian 16-bit read at byte offset off. -/
def readU16 (l : List Nat) (off : Nat) : Nat :=
  l.getD off 0 + 2 ^ 8 * l.getD (off + 1) 0

/-- Little-endian 32-bit read at byte offset off. -/
def readU32 (l : List Nat) (off : Nat) : Nat :=
  l.getD off 0 + 2 ^ 8 * l.getD (off + 1) 0 + 2 ^ 16 * l.getD (off + 2) 0 +
    2 ^ 24 * l.getD (off + 3) 0

/-- Little-endian 16-bit write. -/
def writeU16 (v : Nat) : List Nat :=
  [v % 2 ^ 8, v / 2 ^ 8 % 2 ^ 8]

/-- Little-endian 32-bit write. -/
def writeU32 (v : Nat) : List Nat :=
  [v % 2 ^ 8, v / 2 ^ 8 % 2 ^ 8, v / 2 ^ 16 % 2 ^ 8, v / 2 ^ 24 % 2 ^ 8]

/-- Standard BMP file header (14 bytes). -/
structure BMPFileHeader where
  bfType : Nat
  bfSize : Nat
  bfReserved1 : Nat
  bfReserved2 : Nat
  bfOffBits : Nat

/-- Standard BMP information header (40 bytes). -/
structure BMPInfoHeader where
  biSize : Nat
  biWidth : Nat
  biHeight : Nat
  biPlanes : Nat
  biBitCount : Nat
  biCompression : Nat
  biSizeImage : Nat
  biXPelsPerMeter : Nat
  biYPelsPerMeter : Nat
  biClrUsed : Nat
  biClrImportant : Nat

/-- Reading the 14-byte file header from the start of the stream
(inputFile.read of the packed struct). -/
def decodeFileHeader (l : List Nat) : BMPFileHeader :=
  ⟨readU16 l 0, readU32 l 2, readU16 l 6, readU16 l 8, readU32 l 10⟩

/-- Reading the 40-byte info header immediately after the file header. -/
def decodeInfoHeader (l : List Nat) : BMPInfoHeader :=
  ⟨readU32 l 14, readU32 l 18, readU32 l 22, readU16 l 26, readU16 l 28,
    readU32 l 30, readU32 l 34, readU32 l 38, readU32 l 42, readU32 l 46,
    readU32 l 50⟩

/-- Writing the 14-byte file header (outputFile.write of the packed
struct). -/
def encodeFileHeader (fh : BMPFileHeader) : List Nat :=
  writeU16 fh.bfType ++ (writeU32 fh.bfSize ++ (writeU16 fh.bfReserved1 ++
    (writeU16 fh.bfReserved2 ++ writeU32 fh.bfOffBits)))

/-- Writing the 40-byte info header. -/
def encodeInfoHeader (ih : BMPInfoHeader) : List Nat :=
  writeU32 ih.biSize ++ (writeU32 ih.biWidth ++ (writeU32 ih.biHeight ++
    (writeU16 ih.biPlanes ++ (writeU16 ih.biBitCount ++ (writeU32 ih.biCompression ++
    (writeU32 ih.biSizeImage ++ (writeU32 ih.biXPelsPerMeter ++
    (writeU32 ih.biYPelsPerMeter ++ (writeU32 ih.biClrUsed ++
    writeU32 ih.biClrImportant)))))))))

/-- Error outcomes of the pipelines.  The C++ programs report each of
these on cerr and return 1; the names follow the error taxonomy of the
specification (FormatError: bad signature or truncated header;
UnsupportedFormatError: bit depth not 24/32 or nonzero compression;
BoundsError: crop rectangle outside the source image). -/
inductive PipelineError where
  | formatError
  | unsupportedFormatError
  | boundsError
  deriving DecidableEq

/-- Reading n bytes of pixel data starting at byte offset off
(seekg to bfOffBits followed by read into a value-initialized vector of
size n): the available bytes are copied and, when the stream is shorter,
the remaining entries keep their zero initialization — the C++ code never
checks for a short read. -/
def readPixelData (l : List Nat) (off n : Nat) : List Nat :=
  let avail := (l.drop off).take n
  avail ++ List.replicate (n - avail.length) 0

/-- Header adjustment performed by the crop pipeline
(src/Image_cropping.cpp lines 119-131): new width, height and image size
in the info header, new total file size in the file header, all other
fields copied unchanged. -/
def updateCropHeaders (fh : BMPFileHeader) (ih : BMPInfoHeader)
    (bytesPerPixel cropWidth cropHeight : Nat) : BMPFileHeader × BMPInfoHeader :=
  let croppedRowSize := strideOf cropWidth bytesPerPixel
  let croppedInfoHeader := { ih with
    biWidth := cropWidth
    biHeight := cropHeight
    biSizeImage := croppedRowSize * cropHeight }
  let croppedFileHeader := { fh with
    bfSize := croppedInfoHeader.biSizeImage + fh.bfOffBits }
  (croppedFileHeader, croppedInfoHeader)

/-- The crop pipeline, src/Image_cropping.cpp main (lines 59-148), with
the hardcoded crop rectangle as parameters: validate the signature,
validate the format gate, read the pixel buffer, check the crop rectangle
against the image bounds, crop, update the headers and emit the output
byte stream.  A stream shorter than the two headers would make the C++
program read unspecified bytes; it is modelled as a format failure. -/
def cropMain (input : List Nat) (cropX cropY cropWidth cropHeight : Nat) :
    Except PipelineError (List Nat) :=
  if input.length < 54 then Except.error PipelineError.formatError
  else
    let fileHeader := decodeFileHeader input
    if fileHeader.bfType ≠ 0x4D42 then Except.error PipelineError.formatError
    else
      let infoHeader := decodeInfoHeader input
      let width := infoHeader.biWidth
      let height := infoHeader.biHeight
      let bitCount := infoHeader.biBitCount
      let bytesPerPixel := bitCount / 8
      if (bitCount ≠ 24 ∧ bitCount ≠ 32) ∨ infoHeader.biCompression ≠ 0 then
        Except.error PipelineError.unsupportedFormatError
      else
        let rowSize := strideOf width bytesPerPixel
        let pixelData := readPixelData input fileHeader.bfOffBits (rowSize * height)
        if width < cropX + cropWidth ∨ height < cropY + cropHeight then
          Except.error PipelineError.boundsError
        else
          let croppedPixelData := cropImage pixelData width height bytesPerPixel rowSize
            cropX cropY cropWidth cropHeight
          let headers := updateCropHeaders fileHeader infoHeader bytesPerPixel
            cropWidth cropHeight
          Except.ok (encodeFileHeader headers.1 ++
            (encodeInfoHeader headers.2 ++ croppedPixelData))

/-- The decode-then-encode path shared by the three programs with no
transform applied between the two steps (the structure of
src/Quantization_Resolution.cpp main, lines 69-123, with the
quantization call omitted): validate, read the pixel buffer, write
headers and pixel buffer back out. -/
def decodeEncodeNoTransform (input : List Nat) : Except PipelineError (List Nat) :=
  if input.length < 54 then Except.error PipelineError.formatError
  else
    let fileHeader := decodeFileHeader input
    if fileHeader.bfType ≠ 0x4D42 then Except.error PipelineError.formatError
    else
      let infoHeader := decodeInfoHeader input
      let width := infoHeader.biWidth
      let height := infoHeader.biHeight
      let bitCount := infoHeader.biBitCount
      let bytesPerPixel := bitCount / 8
      if (bitCount ≠ 24 ∧ bitCount ≠ 32) ∨ infoHeader.biCompression ≠ 0 then
        Except.error PipelineError.unsupportedFormatError
      else
        let rowSize := strideOf width bytesPerPixel
        let pixelData := readPixelData input fileHeader.bfOffBits (rowSize * height)
        Except.ok (encodeFileHeader fileHeader ++
          (encodeInfoHeader infoHeader ++ pixelData))

/-- A valid 1 x 1, 24-bit, uncompressed BMP stream: 14-byte file header
(file size 58, pixel data offset 54), 40-byte info header, one 4-byte row
(3 pixel bytes and 1 padding byte).  The pixel data begins immediately
after the headers. -/
def rt54Input : List Nat :=
  [0x42, 0x4D, 58, 0, 0, 0, 0, 0, 0, 0, 54, 0, 0, 0,
   40, 0, 0, 0, 1, 0, 0, 0, 1, 0, 0, 0, 1, 0, 24, 0, 0, 0, 0, 0,
   4, 0, 0, 0, 0, 0, 0, 0, 0, 0, 0, 0, 0, 0, 0, 0, 0, 0, 0, 0,
   10, 20, 30, 0]

/-- A valid 1 x 1, 24-bit, uncompressed BMP stream whose pixel data offset
is 58: four gap bytes (value 9) sit between the headers and the 4-byte
pixel row.  Total length 62. -/
def c7Input : List Nat :=
  [0x42, 0x4D, 62, 0, 0, 0, 0, 0, 0, 0, 58, 0, 0, 0,
   40, 0, 0, 0, 1, 0, 0, 0, 1, 0, 0, 0, 1, 0, 24, 0, 0, 0, 0, 0,
   4, 0, 0, 0, 0, 0, 0, 0, 0, 0, 0, 0, 0, 0, 0, 0, 0, 0, 0, 0,
   9, 9, 9, 9,
   10, 20, 30, 0]

/-- The byte stream the decode-encode path produces from c7Input: the
four gap bytes are dropped, so the output is 58 bytes long. -/
def c7Output : List Nat :=
  [0x42, 0x4D, 62, 0, 0, 0, 0, 0, 0, 0, 58, 0, 0, 0,
   40, 0, 0, 0, 1, 0, 0, 0, 1, 0, 0, 0, 1, 0, 24, 0, 0, 0, 0, 0,
   4, 0, 0, 0, 0, 0, 0, 0, 0, 0, 0, 0, 0, 0, 0, 0, 0, 0, 0, 0,
   10, 20, 30, 0]

/-- A truncated 1 x 1, 24-bit BMP stream: the headers promise a 4-byte row
at offset 54 but only 2 pixel bytes are present (56 bytes in total). -/
def c8Input : List Nat :=
  [0x42, 0x4D, 58, 0, 0, 0, 0, 0, 0, 0, 54, 0, 0, 0,
   40, 0, 0, 0, 1, 0, 0, 0, 1, 0, 0, 0, 1, 0, 24, 0, 0, 0, 0, 0,
   4, 0, 0, 0, 0, 0, 0, 0, 0, 0, 0, 0, 0, 0, 0, 0, 0, 0, 0, 0,
   10, 20]

/-! Theorems. -/

theorem getD_set_self (l : List Nat) (i v : Nat) (h : i < l.length) :
    (l.set i v).getD i 0 = v := by
  simp [List.getD_eq_getElem?_getD, List.getElem?_set_self h]

theorem getD_set_ne (l : List Nat) (i j v : Nat) (h : i ≠ j) :
    (l.set i v).getD j 0 = l.getD j 0 := by
  simp [List.getD_eq_getElem?_getD, List.getElem?_set_ne h]

theorem getD_oob (l : List Nat) (i : Nat) (h : l.length ≤ i) :
    l.getD i 0 = 0 := by
  simp [List.getD_eq_getElem?_getD, List.getElem?_eq_none h]

theorem getD_set_self_oob (l : List Nat) (i v : Nat) (h : l.length ≤ i) :
    (l.set i v).getD i 0 = l.getD i 0 := by
  rw [List.set_eq_of_length_le h]

theorem quantizePixel_length (factor rowBase bytesPerPixel x : Nat) (pd : List Nat) :
    (quantizePixel factor rowBase bytesPerPixel x pd).length = pd.length := by
  simp [quantizePixel, List.range_succ]

theorem quantizeChannel_zero (factor : Nat) : quantizeChannel factor 0 = 0 := by
  simp [quantizeChannel]

theorem quantizePixel_getD_hit (factor rowBase bytesPerPixel x : Nat) (pd : List Nat)
    (b : Nat) (hb : b < 3) :
    (quantizePixel factor rowBase bytesPerPixel x pd).getD (rowBase + x * bytesPerPixel + b) 0 =
      quantizeChannel factor (pd.getD (rowBase + x * bytesPerPixel + b) 0) := by
  have h3 : (List.range 3) = [0, 1, 2] := rfl
  set i := rowBase + x * bytesPerPixel with hi
  have expand : quantizePixel factor rowBase bytesPerPixel x pd =
      (((pd.set (i + 0) (quantizeChannel factor (pd.getD (i + 0) 0))).set (i + 1)
        (quantizeChannel factor
          ((pd.set (i + 0) (quantizeChannel factor (pd.getD (i + 0) 0))).getD (i + 1) 0))).set
        (i + 2)
        (quantizeChannel factor
          (((pd.set (i + 0) (quantizeChannel factor (pd.getD (i + 0) 0))).set (i + 1)
            (quantizeChannel factor
              ((pd.set (i + 0) (quantizeChannel factor (pd.getD (i + 0) 0))).getD (i + 1) 0))).getD
            (i + 2) 0))) := by
    simp [quantizePixel, h3]
  rw [expand]
  rcases Nat.lt_or_ge (i + b) pd.length with hin | hout
  · -- in-bounds case: the three written positions are distinct
    interval_cases b
    · rw [getD_set_ne _ _ _ _ (by omega), getD_set_ne _ _ _ _ (by omega),
        getD_set_self _ _ _ (by simpa using hin)]
    · rw [getD_set_ne _ _ _ _ (by omega),
        getD_set_self _ _ _ (by simpa using hin),
        getD_set_ne _ _ _ _ (by omega)]
    · rw [getD_set_self _ _ _ (by simpa using hin),
        getD_set_ne _ _ _ _ (by omega), getD_set_ne _ _ _ _ (by omega)]
  · -- out-of-bounds case: every getD is 0 and quantizeChannel factor 0 = 0
    have hlen1 : ∀ (l : List Nat) (j w : Nat), (l.set j w).length = l.length :=
      fun l j w => List.length_set l j w
    have hge : ∀ c : Nat, b ≤ c →
        ((((pd.set (i + 0) (quantizeChannel factor (pd.getD (i + 0) 0))).set (i + 1)
          (quantizeChannel factor
            ((pd.set (i + 0) (quantizeChannel factor (pd.getD (i + 0) 0))).getD (i + 1) 0))).set
          (i + 2) (quantizeChannel factor
            (((pd.set (i + 0) (quantizeChannel factor (pd.getD (i + 0) 0))).set (i + 1)
              (quantizeChannel factor
                ((pd.set (i + 0)
                  (quantizeChannel factor (pd.getD (i + 0) 0))).getD (i + 1) 0))).getD
              (i + 2) 0))).getD (i + c) 0) = 0 := by
      intro c hc
      apply getD_oob
      simp only [hlen1]
      omega
    rw [hge b (Nat.le_refl b), getD_oob pd _ hout, quantizeChannel_zero]

theorem quantizePixel_getD_miss (factor rowBase bytesPerPixel x : Nat) (pd : List Nat)
    (q : Nat) (hq : ∀ b < 3, q ≠ rowBase + x * bytesPerPixel + b) :
    (quantizePixel factor rowBase bytesPerPixel x pd).getD q 0 = pd.getD q 0 := by
  have h3 : (List.range 3) = [0, 1, 2] := rfl
  simp only [quantizePixel, h3, List.foldl]
  rw [getD_set_ne _ _ _ _ (fun h => hq 2 (by omega) (by omega)),
    getD_set_ne _ _ _ _ (fun h => hq 1 (by omega) (by omega)),
    getD_set_ne _ _ _ _ (fun h => hq 0 (by omega) (by omega))]

theorem quantizeRow_zero (factor rowBase bytesPerPixel : Nat) (pd : List Nat) :
    quantizeRow factor rowBase bytesPerPixel 0 pd = pd := rfl

theorem quantizeRow_succ (factor rowBase bytesPerPixel w : Nat) (pd : List Nat) :
    quantizeRow factor rowBase bytesPerPixel (w + 1) pd =
      quantizePixel factor rowBase bytesPerPixel w
        (quantizeRow factor rowBase bytesPerPixel w pd) := by
  simp [quantizeRow, List.range_succ]

theorem quantizeRow_length (factor rowBase bytesPerPixel w : Nat) (pd : List Nat) :
    (quantizeRow factor rowBase bytesPerPixel w pd).length = pd.length := by
  induction w with
  | zero => rfl
  | succ w ih => rw [quantizeRow_succ, quantizePixel_length, ih]

/-- Byte offsets of two distinct (pixel, channel) pairs inside a row are
distinct, provided the pixel is at least 3 bytes wide. -/
theorem pixel_offset_ne (bytesPerPixel x b x₂ b₂ : Nat) (hbpp : 3 ≤ bytesPerPixel)
    (hb : b < 3) (hb₂ : b₂ < 3) (hx : x < x₂) :
    x * bytesPerPixel + b ≠ x₂ * bytesPerPixel + b₂ := by
  have h1 : (x + 1) * bytesPerPixel ≤ x₂ * bytesPerPixel :=
    Nat.mul_le_mul_right bytesPerPixel (by omega)
  have h2 : (x + 1) * bytesPerPixel = x * bytesPerPixel + bytesPerPixel :=
    Nat.succ_mul x bytesPerPixel
  omega

theorem quantizeRow_getD_miss (factor rowBase bytesPerPixel w : Nat) (pd : List Nat)
    (q : Nat) (hq : ∀ x < w, ∀ b < 3, q ≠ rowBase + x * bytesPerPixel + b) :
    (quantizeRow factor rowBase bytesPerPixel w pd).getD q 0 = pd.getD q 0 := by
  induction w with
  | zero => rfl
  | succ w ih =>
    rw [quantizeRow_succ,
      quantizePixel_getD_miss _ _ _ _ _ _ (fun b hb => hq w (by omega) b hb),
      ih (fun x hx b hb => hq x (by omega) b hb)]

theorem quantizeRow_getD_hit (factor rowBase bytesPerPixel w : Nat) (pd : List Nat)
    (hbpp : 3 ≤ bytesPerPixel) (x b : Nat) (hx : x < w) (hb : b < 3) :
    (quantizeRow factor rowBase bytesPerPixel w pd).getD (rowBase + x * bytesPerPixel + b) 0 =
      quantizeChannel factor (pd.getD (rowBase + x * bytesPerPixel + b) 0) := by
  induction w with
  | zero => omega
  | succ w ih =>
    rw [quantizeRow_succ]
    rcases Nat.lt_or_ge x w with hxw | hxw
    · rw [quantizePixel_getD_miss _ _ _ _ _ _
        (fun b₂ hb₂ h => pixel_offset_ne bytesPerPixel x b w b₂ hbpp hb hb₂ hxw (by omega)),
        ih hxw]
    · have hxeq : x = w := by omega
      subst hxeq
      rw [quantizePixel_getD_hit _ _ _ _ _ _ hb,
        quantizeRow_getD_miss _ _ _ _ _ _
          (fun x₂ hx₂ b₂ hb₂ h =>
            pixel_offset_ne bytesPerPixel x₂ b₂ x b hbpp hb₂ hb hx₂ (by omega))]

theorem quantizeLoop_zero (factor bytesPerPixel width rowSize : Nat) (pd : List Nat) :
    quantizeLoop factor bytesPerPixel width 0 rowSize pd = pd := rfl

theorem quantizeLoop_succ (factor bytesPerPixel width h rowSize : Nat) (pd : List Nat) :
    quantizeLoop factor bytesPerPixel width (h + 1) rowSize pd =
      quantizeRow factor (h * rowSize) bytesPerPixel width
        (quantizeLoop factor bytesPerPixel width h rowSize pd) := by
  simp [quantizeLoop, List.range_succ]

theorem quantizeLoop_length (factor bytesPerPixel width h rowSize : Nat) (pd : List Nat) :
    (quantizeLoop factor bytesPerPixel width h rowSize pd).length = pd.length := by
  induction h with
  | zero => rfl
  | succ h ih => rw [quantizeLoop_succ, quantizeRow_length, ih]

/-- A color-byte offset of a row lies strictly inside the row stride. -/
theorem color_offset_lt_row (bytesPerPixel width rowSize x b : Nat)
    (hbpp : 3 ≤ bytesPerPixel) (hrs : width * bytesPerPixel ≤ rowSize)
    (hx : x < width) (hb : b < 3) :
    x * bytesPerPixel + b < rowSize := by
  have h1 : (x + 1) * bytesPerPixel ≤ width * bytesPerPixel :=
    Nat.mul_le_mul_right bytesPerPixel (by omega)
  have h2 : (x + 1) * bytesPerPixel = x * bytesPerPixel + bytesPerPixel :=
    Nat.succ_mul x bytesPerPixel
  omega

/-- Color-byte positions of two distinct rows are distinct. -/
theorem row_offset_ne (bytesPerPixel width rowSize y x b y₂ x₂ b₂ : Nat)
    (hbpp : 3 ≤ bytesPerPixel) (hrs : width * bytesPerPixel ≤ rowSize)
    (hx : x < width) (hb : b < 3) (hx₂ : x₂ < width) (hb₂ : b₂ < 3) (hy : y < y₂) :
    y * rowSize + (x * bytesPerPixel + b) ≠ y₂ * rowSize + (x₂ * bytesPerPixel + b₂) := by
  have h1 := color_offset_lt_row bytesPerPixel width rowSize x b hbpp hrs hx hb
  have h2 : (y + 1) * rowSize ≤ y₂ * rowSize := Nat.mul_le_mul_right rowSize (by omega)
  have h3 : (y + 1) * rowSize = y * rowSize + rowSize := Nat.succ_mul y rowSize
  omega

theorem quantizeLoop_getD_miss (factor bytesPerPixel width h rowSize : Nat) (pd : List Nat)
    (q : Nat) (hq : ∀ y < h, ∀ x < width, ∀ b < 3, q ≠ y * rowSize + x * bytesPerPixel + b) :
    (quantizeLoop factor bytesPerPixel width h rowSize pd).getD q 0 = pd.getD q 0 := by
  induction h with
  | zero => rfl
  | succ h ih =>
    rw [quantizeLoop_succ,
      quantizeRow_getD_miss _ _ _ _ _ _
        (fun x hx b hb hcontra => hq h (by omega) x hx b hb (by omega)),
      ih (fun y hy x hx b hb => hq y (by omega) x hx b hb)]

theorem quantizeLoop_getD_hit (factor bytesPerPixel width h rowSize : Nat) (pd : List Nat)
    (hbpp : 3 ≤ bytesPerPixel) (hrs : width * bytesPerPixel ≤ rowSize)
    (y x b : Nat) (hy : y < h) (hx : x < width) (hb : b < 3) :
    (quantizeLoop factor bytesPerPixel width h rowSize pd).getD
        (y * rowSize + x * bytesPerPixel + b) 0 =
      quantizeChannel factor (pd.getD (y * rowSize + x * bytesPerPixel + b) 0) := by
  induction h with
  | zero => omega
  | succ h ih =>
    rw [quantizeLoop_succ]
    rcases Nat.lt_or_ge y h with hyh | hyh
    · rw [quantizeRow_getD_miss _ _ _ _ _ _
        (fun x₂ hx₂ b₂ hb₂ hcontra =>
          row_offset_ne bytesPerPixel width rowSize y x b h x₂ b₂
            hbpp hrs hx hb hx₂ hb₂ hyh (by omega)),
        ih hyh]
    · have hyeq : y = h := by omega
      subst hyeq
      rw [quantizeRow_getD_hit _ _ _ _ _ hbpp x b hx hb,
        quantizeLoop_getD_miss _ _ _ _ _ _ _
          (fun y₂ hy₂ x₂ hx₂ b₂ hb₂ hcontra =>
            row_offset_ne bytesPerPixel width rowSize y₂ x₂ b₂ y x b
              hbpp hrs hx₂ hb₂ hx hb hy₂ (by omega))]

theorem swapBytes_length (l : List Nat) (i j : Nat) :
    (swapBytes l i j).length = l.length := by
  simp [swapBytes]

theorem swapBytes_getD_left (l : List Nat) (i j : Nat) (hi : i < l.length) :
    (swapBytes l i j).getD i 0 = l.getD j 0 := by
  by_cases hij : i = j
  · subst hij
    simp only [swapBytes]
    rw [getD_set_self _ _ _ (by simpa using hi)]
  · simp only [swapBytes]
    rw [getD_set_ne _ _ _ _ (fun h => hij h.symm), getD_set_self _ _ _ hi]

theorem swapBytes_getD_right (l : List Nat) (i j : Nat) (hj : j < l.length) :
    (swapBytes l i j).getD j 0 = l.getD i 0 := by
  simp only [swapBytes]
  rw [getD_set_self _ _ _ (by simpa using hj)]

theorem swapBytes_getD_other (l : List Nat) (i j q : Nat) (hqi : q ≠ i) (hqj : q ≠ j) :
    (swapBytes l i j).getD q 0 = l.getD q 0 := by
  simp only [swapBytes]
  rw [getD_set_ne _ _ _ _ (Ne.symm hqj), getD_set_ne _ _ _ _ (Ne.symm hqi)]

theorem flipPixel_eq_swapRange (rowBase width bytesPerPixel x : Nat) (pd : List Nat) :
    flipPixel rowBase width bytesPerPixel x pd =
      swapRange (rowBase + x * bytesPerPixel)
        (rowBase + (width - x - 1) * bytesPerPixel) bytesPerPixel pd := rfl

theorem swapRange_zero (lbase rbase : Nat) (pd : List Nat) :
    swapRange lbase rbase 0 pd = pd := rfl

theorem swapRange_succ (lbase rbase m : Nat) (pd : List Nat) :
    swapRange lbase rbase (m + 1) pd =
      swapBytes (swapRange lbase rbase m pd) (lbase + m) (rbase + m) := by
  simp [swapRange, List.range_succ]

theorem swapRange_length (lbase rbase m : Nat) (pd : List Nat) :
    (swapRange lbase rbase m pd).length = pd.length := by
  induction m with
  | zero => rfl
  | succ m ih => rw [swapRange_succ, swapBytes_length, ih]

theorem swapRange_getD_other (lbase rbase m : Nat) (pd : List Nat) (q : Nat)
    (hq : ∀ b < m, q ≠ lbase + b ∧ q ≠ rbase + b) :
    (swapRange lbase rbase m pd).getD q 0 = pd.getD q 0 := by
  induction m with
  | zero => rfl
  | succ m ih =>
    rw [swapRange_succ,
      swapBytes_getD_other _ _ _ _ (hq m (by omega)).1 (hq m (by omega)).2,
      ih (fun b hb => hq b (by omega))]

theorem swapRange_getD_left (lbase rbase m : Nat) (pd : List Nat)
    (hdisj : lbase + m ≤ rbase) (b : Nat) (hb : b < m) (hin : lbase + b < pd.length) :
    (swapRange lbase rbase m pd).getD (lbase + b) 0 = pd.getD (rbase + b) 0 := by
  induction m with
  | zero => omega
  | succ m ih =>
    rw [swapRange_succ]
    rcases Nat.lt_or_ge b m with hbm | hbm
    · rw [swapBytes_getD_other _ _ _ _ (by omega) (by omega), ih (by omega) hbm]
    · have hbeq : b = m := by omega
      subst hbeq
      rw [swapBytes_getD_left _ _ _ (by rw [swapRange_length]; omega),
        swapRange_getD_other _ _ _ _ _ (fun b₂ hb₂ => by omega)]

theorem swapRange_getD_right (lbase rbase m : Nat) (pd : List Nat)
    (hdisj : lbase + m ≤ rbase) (b : Nat) (hb : b < m) (hin : rbase + b < pd.length) :
    (swapRange lbase rbase m pd).getD (rbase + b) 0 = pd.getD (lbase + b) 0 := by
  induction m with
  | zero => omega
  | succ m ih =>
    rw [swapRange_succ]
    rcases Nat.lt_or_ge b m with hbm | hbm
    · rw [swapBytes_getD_other _ _ _ _ (by omega) (by omega), ih (by omega) hbm]
    · have hbeq : b = m := by omega
      subst hbeq
      rw [swapBytes_getD_right _ _ _ (by rw [swapRange_length]; omega),
        swapRange_getD_other _ _ _ _ _ (fun b₂ hb₂ => by omega)]

/-- Byte offset of channel b of the pixel at column c lies below the
logical row width in bytes. -/
theorem col_offset_lt (w bpp c b : Nat) (hc : c < w) (hb : b < bpp) :
    c * bpp + b < w * bpp := by
  have h1 : (c + 1) * bpp ≤ w * bpp := Nat.mul_le_mul_right bpp (by omega)
  have h2 : (c + 1) * bpp = c * bpp + bpp := Nat.succ_mul c bpp
  omega

/-- Byte offsets of channels of two distinct columns are distinct. -/
theorem col_offset_ne (bpp c b c₂ b₂ : Nat) (hb : b < bpp) (hb₂ : b₂ < bpp)
    (hc : c < c₂) : c * bpp + b ≠ c₂ * bpp + b₂ := by
  have h1 : (c + 1) * bpp ≤ c₂ * bpp := Nat.mul_le_mul_right bpp (by omega)
  have h2 : (c + 1) * bpp = c * bpp + bpp := Nat.succ_mul c bpp
  omega

/-- Byte positions of pixel channels in two distinct rows are distinct. -/
theorem rowpos_ne (w bpp rs y c b y₂ c₂ b₂ : Nat) (hrs : w * bpp ≤ rs)
    (hc : c < w) (hb : b < bpp) (hc₂ : c₂ < w) (hb₂ : b₂ < bpp) (hy : y < y₂) :
    y * rs + c * bpp + b ≠ y₂ * rs + c₂ * bpp + b₂ := by
  have h1 := col_offset_lt w bpp c b hc hb
  have h2 : (y + 1) * rs ≤ y₂ * rs := Nat.mul_le_mul_right rs (by omega)
  have h3 : (y + 1) * rs = y * rs + rs := Nat.succ_mul y rs
  omega

/-- A byte position inside a row but at or beyond the logical row width
(a padding byte) differs from every pixel-channel position. -/
theorem padpos_ne (w bpp rs y o y₂ c b : Nat) (hrs : w * bpp ≤ rs)
    (ho : w * bpp ≤ o) (ho₂ : o < rs) (hc : c < w) (hb : b < bpp) :
    y * rs + o ≠ y₂ * rs + c * bpp + b := by
  have h1 := col_offset_lt w bpp c b hc hb
  rcases Nat.lt_trichotomy y y₂ with hy | hy | hy
  · have h2 : (y + 1) * rs ≤ y₂ * rs := Nat.mul_le_mul_right rs (by omega)
    have h3 : (y + 1) * rs = y * rs + rs := Nat.succ_mul y rs
    omega
  · subst hy
    omega
  · have h2 : (y₂ + 1) * rs ≤ y * rs := Nat.mul_le_mul_right rs (by omega)
    have h3 : (y₂ + 1) * rs = y₂ * rs + rs := Nat.succ_mul y₂ rs
    omega

/-- A byte position at or beyond the whole buffer extent differs from
every pixel-channel position of the first h rows. -/
theorem beyondpos_ne (w bpp rs h q y c b : Nat) (hrs : w * bpp ≤ rs)
    (hq : rs * h ≤ q) (hy : y < h) (hc : c < w) (hb : b < bpp) :
    q ≠ y * rs + c * bpp + b := by
  have h1 := col_offset_lt w bpp c b hc hb
  have h2 : (y + 1) * rs ≤ h * rs := Nat.mul_le_mul_right rs (by omega)
  have h3 : (y + 1) * rs = y * rs + rs := Nat.succ_mul y rs
  have h4 : h * rs = rs * h := Nat.mul_comm h rs
  omega

theorem flipPixel_length (rowBase width bytesPerPixel x : Nat) (pd : List Nat) :
    (flipPixel rowBase width bytesPerPixel x pd).length = pd.length := by
  rw [flipPixel_eq_swapRange, swapRange_length]

theorem flipPixel_disj (width bytesPerPixel x : Nat) (hx : x < width / 2) :
    x * bytesPerPixel + bytesPerPixel ≤ (width - x - 1) * bytesPerPixel := by
  have h2 : (x + 1) * bytesPerPixel = x * bytesPerPixel + bytesPerPixel :=
    Nat.succ_mul x bytesPerPixel
  have h1 : (x + 1) * bytesPerPixel ≤ (width - x - 1) * bytesPerPixel :=
    Nat.mul_le_mul_right bytesPerPixel (by omega)
  omega

theorem flipPixel_getD_left (rowBase width bytesPerPixel x : Nat) (pd : List Nat)
    (hx : x < width / 2) (b : Nat) (hb : b < bytesPerPixel)
    (hin : rowBase + x * bytesPerPixel + b < pd.length) :
    (flipPixel rowBase width bytesPerPixel x pd).getD (rowBase + x * bytesPerPixel + b) 0 =
      pd.getD (rowBase + (width - x - 1) * bytesPerPixel + b) 0 := by
  rw [flipPixel_eq_swapRange]
  exact swapRange_getD_left _ _ _ _
    (by have := flipPixel_disj width bytesPerPixel x hx; omega) b hb hin

theorem flipPixel_getD_right (rowBase width bytesPerPixel x : Nat) (pd : List Nat)
    (hx : x < width / 2) (b : Nat) (hb : b < bytesPerPixel)
    (hin : rowBase + (width - x - 1) * bytesPerPixel + b < pd.length) :
    (flipPixel rowBase width bytesPerPixel x pd).getD
        (rowBase + (width - x - 1) * bytesPerPixel + b) 0 =
      pd.getD (rowBase + x * bytesPerPixel + b) 0 := by
  rw [flipPixel_eq_swapRange]
  exact swapRange_getD_right _ _ _ _
    (by have := flipPixel_disj width bytesPerPixel x hx; omega) b hb hin

theorem flipPixel_getD_other (rowBase width bytesPerPixel x : Nat) (pd : List Nat)
    (q : Nat)
    (hq : ∀ b < bytesPerPixel, q ≠ rowBase + x * bytesPerPixel + b ∧
      q ≠ rowBase + (width - x - 1) * bytesPerPixel + b) :
    (flipPixel rowBase width bytesPerPixel x pd).getD q 0 = pd.getD q 0 := by
  rw [flipPixel_eq_swapRange]
  exact swapRange_getD_other _ _ _ _ _ hq

theorem flipRow_eq_aux (rowBase width bytesPerPixel : Nat) (pd : List Nat) :
    flipRow rowBase width bytesPerPixel pd =
      flipRowAux rowBase width bytesPerPixel (width / 2) pd := rfl

theorem flipRowAux_succ (rowBase width bytesPerPixel k : Nat) (pd : List Nat) :
    flipRowAux rowBase width bytesPerPixel (k + 1) pd =
      flipPixel rowBase width bytesPerPixel k
        (flipRowAux rowBase width bytesPerPixel k pd) := by
  simp [flipRowAux, List.range_succ]

theorem flipRowAux_length (rowBase width bytesPerPixel k : Nat) (pd : List Nat) :
    (flipRowAux rowBase width bytesPerPixel k pd).length = pd.length := by
  induction k with
  | zero => rfl
  | succ k ih => rw [flipRowAux_succ, flipPixel_length, ih]

theorem flipRowAux_getD_other (rowBase width bytesPerPixel k : Nat) (pd : List Nat)
    (q : Nat)
    (hq : ∀ x < k, ∀ b < bytesPerPixel, q ≠ rowBase + x * bytesPerPixel + b ∧
      q ≠ rowBase + (width - x - 1) * bytesPerPixel + b) :
    (flipRowAux rowBase width bytesPerPixel k pd).getD q 0 = pd.getD q 0 := by
  induction k with
  | zero => rfl
  | succ k ih =>
    rw [flipRowAux_succ,
      flipPixel_getD_other _ _ _ _ _ _ (fun b hb => hq k (by omega) b hb),
      ih (fun x hx b hb => hq x (by omega) b hb)]

theorem flipRowAux_getD_left (rowBase width bytesPerPixel k : Nat) (pd : List Nat)
    (hk : k ≤ width / 2) (x b : Nat) (hx : x < k) (hb : b < bytesPerPixel)
    (hin : rowBase + x * bytesPerPixel + b < pd.length) :
    (flipRowAux rowBase width bytesPerPixel k pd).getD (rowBase + x * bytesPerPixel + b) 0 =
      pd.getD (rowBase + (width - x - 1) * bytesPerPixel + b) 0 := by
  induction k with
  | zero => omega
  | succ k ih =>
    rw [flipRowAux_succ]
    rcases Nat.lt_or_ge x k with hxk | hxk
    · rw [flipPixel_getD_other _ _ _ _ _ _
        (fun b₂ hb₂ => by
          constructor
          · exact fun hcontra =>
              col_offset_ne bytesPerPixel x b k b₂ hb hb₂ (by omega) (by omega)
          · exact fun hcontra =>
              col_offset_ne bytesPerPixel x b (width - k - 1) b₂ hb hb₂ (by omega) (by omega)),
        ih (by omega) hxk]
    · have hxeq : x = k := by omega
      subst hxeq
      rw [flipPixel_getD_left _ _ _ _ _ (by omega) b hb
          (by rw [flipRowAux_length]; exact hin),
        flipRowAux_getD_other _ _ _ _ _ _
          (fun x₂ hx₂ b₂ hb₂ => by
            constructor
            · exact fun hcontra =>
                col_offset_ne bytesPerPixel x₂ b₂ (width - x - 1) b hb₂ hb (by omega) (by omega)
            · exact fun hcontra =>
                col_offset_ne bytesPerPixel (width - x - 1) b (width - x₂ - 1) b₂ hb hb₂
                  (by omega) (by omega))]

theorem flipRowAux_getD_right (rowBase width bytesPerPixel k : Nat) (pd : List Nat)
    (hk : k ≤ width / 2) (x b : Nat) (hx : x < k) (hb : b < bytesPerPixel)
    (hin : rowBase + (width - x - 1) * bytesPerPixel + b < pd.length) :
    (flipRowAux rowBase width bytesPerPixel k pd).getD
        (rowBase + (width - x - 1) * bytesPerPixel + b) 0 =
      pd.getD (rowBase + x * bytesPerPixel + b) 0 := by
  induction k with
  | zero => omega
  | succ k ih =>
    rw [flipRowAux_succ]
    rcases Nat.lt_or_ge x k with hxk | hxk
    · rw [flipPixel_getD_other _ _ _ _ _ _
        (fun b₂ hb₂ => by
          constructor
          · exact fun hcontra =>
              col_offset_ne bytesPerPixel k b₂ (width - x - 1) b hb₂ hb (by omega) (by omega)
          · exact fun hcontra =>
              col_offset_ne bytesPerPixel (width - k - 1) b₂ (width - x - 1) b hb₂ hb
                (by omega) (by omega)), ih (by omega) hxk]
    · have hxeq : x = k := by omega
      subst hxeq
      rw [flipPixel_getD_right _ _ _ _ _ (by omega) b hb
          (by rw [flipRowAux_length]; exact hin),
        flipRowAux_getD_other _ _ _ _ _ _
          (fun x₂ hx₂ b₂ hb₂ => by
            constructor
            · exact fun hcontra =>
                col_offset_ne bytesPerPixel x₂ b₂ x b hb₂ hb (by omega) (by omega)
            · exact fun hcontra =>
                col_offset_ne bytesPerPixel x b (width - x₂ - 1) b₂ hb hb₂
                  (by omega) (by omega))]

theorem flipRow_length (rowBase width bytesPerPixel : Nat) (pd : List Nat) :
    (flipRow rowBase width bytesPerPixel pd).length = pd.length := by
  rw [flipRow_eq_aux, flipRowAux_length]

/-- Full mirror characterization of one flipped row: the byte of channel b
at column c comes from column width - c - 1 (for the middle column of an
odd width the two coincide). -/
theorem flipRow_getD (rowBase width bytesPerPixel : Nat) (pd : List Nat)
    (c b : Nat) (hc : c < width) (hb : b < bytesPerPixel)
    (hin : rowBase + width * bytesPerPixel ≤ pd.length) :
    (flipRow rowBase width bytesPerPixel pd).getD (rowBase + c * bytesPerPixel + b) 0 =
      pd.getD (rowBase + (width - c - 1) * bytesPerPixel + b) 0 := by
  rw [flipRow_eq_aux]
  have hcol := col_offset_lt width bytesPerPixel c b hc hb
  rcases Nat.lt_or_ge c (width / 2) with hhalf | hhalf
  · exact flipRowAux_getD_left _ _ _ _ _ (Nat.le_refl _) c b hhalf hb (by omega)
  · rcases Nat.lt_or_ge (width - c - 1) (width / 2) with hhalf₂ | hhalf₂
    · have hcc : width - (width - c - 1) - 1 = c := by omega
      have := flipRowAux_getD_right rowBase width bytesPerPixel (width / 2) pd
        (Nat.le_refl _) (width - c - 1) b hhalf₂ hb
      rw [hcc] at this
      exact this (by omega)
    · have hmid : width - c - 1 = c := by omega
      rw [hmid]
      exact flipRowAux_getD_other _ _ _ _ _ _
        (fun x hx b₂ hb₂ => by
          constructor
          · exact fun hcontra =>
              col_offset_ne bytesPerPixel x b₂ c b hb₂ hb (by omega) (by omega)
          · exact fun hcontra =>
              col_offset_ne bytesPerPixel c b (width - x - 1) b₂ hb hb₂
                (by omega) (by omega))

/-- Bytes that belong to no pixel of the row (padding bytes, bytes of
other rows) are left unchanged by flipRow. -/
theorem flipRow_getD_other (rowBase width bytesPerPixel : Nat) (pd : List Nat)
    (q : Nat) (hq : ∀ c < width, ∀ b < bytesPerPixel, q ≠ rowBase + c * bytesPerPixel + b) :
    (flipRow rowBase width bytesPerPixel pd).getD q 0 = pd.getD q 0 := by
  rw [flipRow_eq_aux]
  exact flipRowAux_getD_other _ _ _ _ _ _
    (fun x hx b hb =>
      ⟨hq x (by omega) b hb, hq (width - x - 1) (by omega) b hb⟩)

theorem flipHorizontally_zero (width rowSize bytesPerPixel : Nat) (pd : List Nat) :
    flipHorizontally pd width 0 rowSize bytesPerPixel = pd := rfl

theorem flipHorizontally_succ (width h rowSize bytesPerPixel : Nat) (pd : List Nat) :
    flipHorizontally pd width (h + 1) rowSize bytesPerPixel =
      flipRow (h * rowSize) width bytesPerPixel
        (flipHorizontally pd width h rowSize bytesPerPixel) := by
  simp [flipHorizontally, List.range_succ]

theorem flipHorizontally_length (width h rowSize bytesPerPixel : Nat) (pd : List Nat) :
    (flipHorizontally pd width h rowSize bytesPerPixel).length = pd.length := by
  induction h with
  | zero => rfl
  | succ h ih => rw [flipHorizontally_succ, flipRow_length, ih]

theorem flipHorizontally_getD_other (width h rowSize bytesPerPixel : Nat) (pd : List Nat)
    (hrs : width * bytesPerPixel ≤ rowSize) (q : Nat)
    (hq : ∀ y < h, ∀ c < width, ∀ b < bytesPerPixel,
      q ≠ y * rowSize + c * bytesPerPixel + b) :
    (flipHorizontally pd width h rowSize bytesPerPixel).getD q 0 = pd.getD q 0 := by
  induction h with
  | zero => rfl
  | succ h ih =>
    rw [flipHorizontally_succ,
      flipRow_getD_other _ _ _ _ _
        (fun c hc b hb hcontra => hq h (by omega) c hc b hb (by omega)),
      ih (fun y hy c hc b hb => hq y (by omega) c hc b hb)]

/-- Full mirror characterization of flipHorizontally on pixel bytes. -/
theorem flipHorizontally_getD (width h rowSize bytesPerPixel : Nat) (pd : List Nat)
    (hrs : width * bytesPerPixel ≤ rowSize) (hlen : rowSize * h ≤ pd.length)
    (y c b : Nat) (hy : y < h) (hc : c < width) (hb : b < bytesPerPixel) :
    (flipHorizontally pd width h rowSize bytesPerPixel).getD
        (y * rowSize + c * bytesPerPixel + b) 0 =
      pd.getD (y * rowSize + (width - c - 1) * bytesPerPixel + b) 0 := by
  induction h with
  | zero => omega
  | succ h ih =>
    rw [flipHorizontally_succ]
    have hmul : (h + 1) * rowSize = h * rowSize + rowSize := Nat.succ_mul h rowSize
    have hmul₂ : rowSize * (h + 1) = (h + 1) * rowSize := Nat.mul_comm rowSize (h + 1)
    have hmul₃ : rowSize * h = h * rowSize := Nat.mul_comm rowSize h
    rcases Nat.lt_or_ge y h with hyh | hyh
    · rw [flipRow_getD_other _ _ _ _ _
        (fun c₂ hc₂ b₂ hb₂ hcontra =>
          rowpos_ne width bytesPerPixel rowSize y c b h c₂ b₂ hrs hc hb hc₂ hb₂ hyh
            (by omega)),
        ih (by omega) hyh]
    · have hyeq : y = h := by omega
      subst hyeq
      rw [flipRow_getD _ _ _ _ c b hc hb
          (by rw [flipHorizontally_length]; omega),
        flipHorizontally_getD_other _ _ _ _ _ hrs _
          (fun y₂ hy₂ c₂ hc₂ b₂ hb₂ hcontra =>
            rowpos_ne width bytesPerPixel rowSize y₂ c₂ b₂ y (width - c - 1) b hrs hc₂ hb₂
              (by omega) hb hy₂ (by omega))]

theorem strideOf_ge (width bytesPerPixel : Nat) :
    width * bytesPerPixel ≤ strideOf width bytesPerPixel := by
  unfold strideOf
  omega

theorem copyBytes_length (dst : List Nat) (dstOff : Nat) (src : List Nat) (srcOff len : Nat)
    (hdst : dstOff + len ≤ dst.length) (hsrc : srcOff + len ≤ src.length) :
    (copyBytes dst dstOff src srcOff len).length = dst.length := by
  simp [copyBytes]
  omega

theorem copyBytes_getD_lt (dst : List Nat) (dstOff : Nat) (src : List Nat) (srcOff len : Nat)
    (q : Nat) (hq : q < dstOff) (hdst : dstOff ≤ dst.length) :
    (copyBytes dst dstOff src srcOff len).getD q 0 = dst.getD q 0 := by
  have htake : (dst.take dstOff).length = dstOff := by simp; omega
  simp only [copyBytes, List.getD_eq_getElem?_getD]
  rw [List.getElem?_append_left (by omega), List.getElem?_take_of_lt hq]

theorem copyBytes_getD_mid (dst : List Nat) (dstOff : Nat) (src : List Nat) (srcOff len : Nat)
    (o : Nat) (ho : o < len) (hdst : dstOff + len ≤ dst.length)
    (hsrc : srcOff + len ≤ src.length) :
    (copyBytes dst dstOff src srcOff len).getD (dstOff + o) 0 = src.getD (srcOff + o) 0 := by
  have htake : (dst.take dstOff).length = dstOff := by simp; omega
  have hmid : ((src.drop srcOff).take len).length = len := by simp; omega
  simp only [copyBytes, List.getD_eq_getElem?_getD]
  rw [List.getElem?_append_right (by omega), htake, Nat.add_sub_cancel_left,
    List.getElem?_append_left (by omega), List.getElem?_take_of_lt ho,
    List.getElem?_drop]

theorem copyBytes_getD_ge (dst : List Nat) (dstOff : Nat) (src : List Nat) (srcOff len : Nat)
    (q : Nat) (hq : dstOff + len ≤ q) (hdst : dstOff + len ≤ dst.length)
    (hsrc : srcOff + len ≤ src.length) :
    (copyBytes dst dstOff src srcOff len).getD q 0 = dst.getD q 0 := by
  have htake : (dst.take dstOff).length = dstOff := by simp; omega
  have hmid : ((src.drop srcOff).take len).length = len := by simp; omega
  simp only [copyBytes, List.getD_eq_getElem?_getD]
  rw [List.getElem?_append_right (by omega), htake,
    List.getElem?_append_right (by omega), hmid, List.getElem?_drop]
  have hidx : dstOff + len + (q - dstOff - len) = q := by omega
  rw [hidx]

theorem cropRows_zero (src : List Nat) (bytesPerPixel rowSize x y cropWidth cRS : Nat)
    (dst : List Nat) :
    cropRows src bytesPerPixel rowSize x y cropWidth cRS 0 dst = dst := rfl

theorem cropRows_succ (src : List Nat) (bytesPerPixel rowSize x y cropWidth cRS k : Nat)
    (dst : List Nat) :
    cropRows src bytesPerPixel rowSize x y cropWidth cRS (k + 1) dst =
      copyBytes (cropRows src bytesPerPixel rowSize x y cropWidth cRS k dst)
        (k * cRS) src ((y + k) * rowSize + x * bytesPerPixel)
        (cropWidth * bytesPerPixel) := by
  simp [cropRows, List.range_succ]

theorem cropRows_length (src : List Nat) (bytesPerPixel rowSize x y cropWidth cRS k : Nat)
    (dst : List Nat) (hcrs : cropWidth * bytesPerPixel ≤ cRS)
    (hdst : k * cRS ≤ dst.length)
    (hsrc : ∀ j < k, (y + j) * rowSize + x * bytesPerPixel + cropWidth * bytesPerPixel ≤
      src.length) :
    (cropRows src bytesPerPixel rowSize x y cropWidth cRS k dst).length = dst.length := by
  induction k with
  | zero => rfl
  | succ k ih =>
    have hmul : (k + 1) * cRS = k * cRS + cRS := Nat.succ_mul k cRS
    rw [cropRows_succ, copyBytes_length]
    · exact ih (by omega) (fun j hj => hsrc j (by omega))
    · rw [ih (by omega) (fun j hj => hsrc j (by omega))]
      omega
    · have := hsrc k (by omega)
      omega

theorem cropRows_getD_mid (src : List Nat) (bytesPerPixel rowSize x y cropWidth cRS k : Nat)
    (dst : List Nat) (hcrs : cropWidth * bytesPerPixel ≤ cRS)
    (hdst : k * cRS ≤ dst.length)
    (hsrc : ∀ j < k, (y + j) * rowSize + x * bytesPerPixel + cropWidth * bytesPerPixel ≤
      src.length)
    (j o : Nat) (hj : j < k) (ho : o < cropWidth * bytesPerPixel) :
    (cropRows src bytesPerPixel rowSize x y cropWidth cRS k dst).getD (j * cRS + o) 0 =
      src.getD ((y + j) * rowSize + x * bytesPerPixel + o) 0 := by
  induction k with
  | zero => omega
  | succ k ih =>
    have hmul : (k + 1) * cRS = k * cRS + cRS := Nat.succ_mul k cRS
    have hlen : (cropRows src bytesPerPixel rowSize x y cropWidth cRS k dst).length =
        dst.length := cropRows_length _ _ _ _ _ _ _ _ _ hcrs (by omega)
      (fun j₂ hj₂ => hsrc j₂ (by omega))
    rw [cropRows_succ]
    rcases Nat.lt_or_ge j k with hjk | hjk
    · have hjmul : (j + 1) * cRS ≤ k * cRS := Nat.mul_le_mul_right cRS (by omega)
      have hjmul₂ : (j + 1) * cRS = j * cRS + cRS := Nat.succ_mul j cRS
      rw [copyBytes_getD_lt _ _ _ _ _ _ (by omega) (by rw [hlen]; omega),
        ih (by omega) (fun j₂ hj₂ => hsrc j₂ (by omega)) hjk]
    · have hjeq : j = k := by omega
      subst hjeq
      have := hsrc j (by omega)
      rw [copyBytes_getD_mid _ _ _ _ _ _ ho (by rw [hlen]; omega) (by omega)]

theorem getD_lt_256 (l : List Nat) (hl : ∀ b ∈ l, b < 256) (i : Nat) :
    l.getD i 0 < 256 := by
  rcases Nat.lt_or_ge i l.length with h | h
  · have : l.getD i 0 = l[i] := by
      simp [List.getD_eq_getElem?_getD, List.getElem?_eq_getElem h]
    rw [this]
    exact hl _ (List.getElem_mem h)
  · rw [getD_oob _ _ h]
    omega

theorem writeU16_readU16 (l : List Nat) (hl : ∀ b ∈ l, b < 256) (off : Nat) :
    writeU16 (readU16 l off) = [l.getD off 0, l.getD (off + 1) 0] := by
  have h0 := getD_lt_256 l hl off
  have h1 := getD_lt_256 l hl (off + 1)
  simp only [writeU16, readU16]
  have e0 : (l.getD off 0 + 2 ^ 8 * l.getD (off + 1) 0) % 2 ^ 8 = l.getD off 0 := by omega
  have e1 : (l.getD off 0 + 2 ^ 8 * l.getD (off + 1) 0) / 2 ^ 8 % 2 ^ 8 =
      l.getD (off + 1) 0 := by omega
  rw [e0, e1]

theorem writeU32_readU32 (l : List Nat) (hl : ∀ b ∈ l, b < 256) (off : Nat) :
    writeU32 (readU32 l off) =
      [l.getD off 0, l.getD (off + 1) 0, l.getD (off + 2) 0, l.getD (off + 3) 0] := by
  have h0 := getD_lt_256 l hl off
  have h1 := getD_lt_256 l hl (off + 1)
  have h2 := getD_lt_256 l hl (off + 2)
  have h3 := getD_lt_256 l hl (off + 3)
  simp only [writeU32, readU32]
  have e0 : (l.getD off 0 + 2 ^ 8 * l.getD (off + 1) 0 + 2 ^ 16 * l.getD (off + 2) 0 +
      2 ^ 24 * l.getD (off + 3) 0) % 2 ^ 8 = l.getD off 0 := by omega
  have e1 : (l.getD off 0 + 2 ^ 8 * l.getD (off + 1) 0 + 2 ^ 16 * l.getD (off + 2) 0 +
      2 ^ 24 * l.getD (off + 3) 0) / 2 ^ 8 % 2 ^ 8 = l.getD (off + 1) 0 := by omega
  have e2 : (l.getD off 0 + 2 ^ 8 * l.getD (off + 1) 0 + 2 ^ 16 * l.getD (off + 2) 0 +
      2 ^ 24 * l.getD (off + 3) 0) / 2 ^ 16 % 2 ^ 8 = l.getD (off + 2) 0 := by omega
  have e3 : (l.getD off 0 + 2 ^ 8 * l.getD (off + 1) 0 + 2 ^ 16 * l.getD (off + 2) 0 +
      2 ^ 24 * l.getD (off + 3) 0) / 2 ^ 24 % 2 ^ 8 = l.getD (off + 3) 0 := by omega
  rw [e0, e1, e2, e3]

theorem take_eq_map_range (l : List Nat) (off n : Nat) (h : off + n ≤ l.length) :
    (l.drop off).take n = (List.range n).map (fun i => l.getD (off + i) 0) := by
  induction n with
  | zero => simp
  | succ n ih =>
    rw [List.take_succ, List.range_succ, List.map_append, ih (by omega)]
    congr 1
    rw [List.getElem?_drop, List.getElem?_eq_getElem (by omega)]
    simp [List.getD_eq_getElem?_getD,
      List.getElem?_eq_getElem (show off + n < l.length by omega)]

theorem encodeFileHeader_decode (l : List Nat) (hl : ∀ b ∈ l, b < 256)
    (hlen : 14 ≤ l.length) :
    encodeFileHeader (decodeFileHeader l) = l.take 14 := by
  have htake : l.take 14 = (l.drop 0).take 14 := by rw [List.drop_zero]
  rw [htake, take_eq_map_range l 0 14 (by omega)]
  simp only [encodeFileHeader, decodeFileHeader,
    writeU16_readU16 l hl, writeU32_readU32 l hl]
  simp [List.range_succ]

theorem encodeInfoHeader_decode (l : List Nat) (hl : ∀ b ∈ l, b < 256)
    (hlen : 54 ≤ l.length) :
    encodeInfoHeader (decodeInfoHeader l) = (l.drop 14).take 40 := by
  rw [take_eq_map_range l 14 40 (by omega)]
  simp only [encodeInfoHeader, decodeInfoHeader,
    writeU16_readU16 l hl, writeU32_readU32 l hl]
  simp [List.range_succ]

/-- Claim C4 (code bug): quantizePixelData has no parameter check at all:
called with quantizationBits = 0 it computes levels = 1 and divides
255 / (levels - 1) = 255 / 0, which is undefined behaviour in C++ (in
practice a crash), modelled as none.  No InvalidParameterError branch
exists in the code. -/
theorem quantizePixelData_bits_zero_crash (pixelData : List Nat)
    (bytesPerPixel width height rowSize : Nat) :
    quantizePixelData pixelData bytesPerPixel width height rowSize 0 = none := rfl

/-- Claim C9: after a crop, the info header carries the crop width, crop
height and the recomputed image size croppedRowSize * cropHeight; the
file header carries the recomputed file size pixelDataOffset + image
size; every other field of both headers is copied from the input
unchanged. -/
theorem updateCropHeaders_fields (fh : BMPFileHeader) (ih : BMPInfoHeader)
    (bytesPerPixel cropWidth cropHeight : Nat) :
    (updateCropHeaders fh ih bytesPerPixel cropWidth cropHeight).2.biWidth = cropWidth ∧
    (updateCropHeaders fh ih bytesPerPixel cropWidth cropHeight).2.biHeight = cropHeight ∧
    (updateCropHeaders fh ih bytesPerPixel cropWidth cropHeight).2.biSizeImage =
      strideOf cropWidth bytesPerPixel * cropHeight ∧
    (updateCropHeaders fh ih bytesPerPixel cropWidth cropHeight).1.bfSize =
      fh.bfOffBits + strideOf cropWidth bytesPerPixel * cropHeight ∧
    (updateCropHeaders fh ih bytesPerPixel cropWidth cropHeight).1.bfType = fh.bfType ∧
    (updateCropHeaders fh ih bytesPerPixel cropWidth cropHeight).1.bfReserved1 =
      fh.bfReserved1 ∧
    (updateCropHeaders fh ih bytesPerPixel cropWidth cropHeight).1.bfReserved2 =
      fh.bfReserved2 ∧
    (updateCropHeaders fh ih bytesPerPixel cropWidth cropHeight).1.bfOffBits =
      fh.bfOffBits ∧
    (updateCropHeaders fh ih bytesPerPixel cropWidth cropHeight).2.biSize = ih.biSize ∧
    (updateCropHeaders fh ih bytesPerPixel cropWidth cropHeight).2.biPlanes = ih.biPlanes ∧
    (updateCropHeaders fh ih bytesPerPixel cropWidth cropHeight).2.biBitCount =
      ih.biBitCount ∧
    (updateCropHeaders fh ih bytesPerPixel cropWidth cropHeight).2.biCompression =
      ih.biCompression ∧
    (updateCropHeaders fh ih bytesPerPixel cropWidth cropHeight).2.biXPelsPerMeter =
      ih.biXPelsPerMeter ∧
    (updateCropHeaders fh ih bytesPerPixel cropWidth cropHeight).2.biYPelsPerMeter =
      ih.biYPelsPerMeter ∧
    (updateCropHeaders fh ih bytesPerPixel cropWidth cropHeight).2.biClrUsed =
      ih.biClrUsed ∧
    (updateCropHeaders fh ih bytesPerPixel cropWidth cropHeight).2.biClrImportant =
      ih.biClrImportant := by
  simp [updateCropHeaders, Nat.add_comm]

/-- Claim C5: whenever the crop rectangle exceeds the source bounds
(x + cropWidth > width or y + cropHeight > height), the crop pipeline of
src/Image_cropping.cpp stops with the bounds error before cropping and
produces no output bytes. -/
theorem cropMain_bounds_error (input : List Nat) (cropX cropY cropW cropH : Nat)
    (h54 : 54 ≤ input.length)
    (hsig : readU16 input 0 = 0x4D42)
    (hbit : readU16 input 28 = 24 ∨ readU16 input 28 = 32)
    (hcomp : readU32 input 30 = 0)
    (hbounds : readU32 input 18 < cropX + cropW ∨ readU32 input 22 < cropY + cropH) :
    cropMain input cropX cropY cropW cropH = Except.error PipelineError.boundsError := by
  simp only [cropMain, decodeFileHeader, decodeInfoHeader]
  rw [if_neg (by omega), if_neg (by simp [hsig]),
    if_neg (by rcases hbit with h | h <;> simp [h, hcomp]), if_pos hbounds]

/-- Witness for cropMain_bounds_error: cropping a 2 x 1 region out of the
1 x 1 image c8Input fails with the bounds error. -/
theorem cropMain_bounds_error_witness :
    cropMain c8Input 0 0 2 1 = Except.error PipelineError.boundsError :=
  cropMain_bounds_error c8Input 0 0 2 1 (by decide) (by decide)
    (Or.inl (by decide)) (by decide) (Or.inl (by decide))

/-- Claim C8 (code bug): the crop pipeline never checks that the pixel
read was complete.  On the truncated stream c8Input (2 of the 4 promised
pixel bytes) it silently keeps the zero initialization for the missing
bytes and still produces a full output stream, instead of failing with a
TruncatedDataError before writing. -/
theorem cropMain_truncated_no_error :
    ∃ out, cropMain c8Input 0 0 1 1 = Except.ok out := ⟨_, rfl⟩

/-- Claim C7, counterexample: c7Input is a valid 24-bit uncompressed BMP
(signature, gate fields and pixel data all in place) whose pixel data
offset is 58 rather than 54; decode followed by encode drops the four gap
bytes, so the output is not the input stream. -/
theorem decodeEncode_not_roundtrip :
    decodeEncodeNoTransform c7Input ≠ Except.ok c7Input := by
  intro h
  have hres : decodeEncodeNoTransform c7Input = Except.ok c7Output := rfl
  rw [hres] at h
  have h2 : c7Output = c7Input := Except.ok.inj h
  exact absurd (congrArg List.length h2) (by decide)

/-- Claim C7, amended: for every valid 24-bit or 32-bit uncompressed BMP
stream whose pixel data starts directly after the two headers
(pixelDataOffset = 54) and whose length is exactly 54 plus
stride * height, decode followed by encode with no transform reproduces
the input byte stream exactly. -/
theorem decodeEncode_roundtrip (input : List Nat)
    (hbytes : ∀ b ∈ input, b < 256)
    (hsig : readU16 input 0 = 0x4D42)
    (hbit : readU16 input 28 = 24 ∨ readU16 input 28 = 32)
    (hcomp : readU32 input 30 = 0)
    (hoff : readU32 input 10 = 54)
    (hlen : input.length =
      54 + strideOf (readU32 input 18) (readU16 input 28 / 8) * readU32 input 22) :
    decodeEncodeNoTransform input = Except.ok input := by
  simp only [decodeEncodeNoTransform]
  rw [if_neg (by omega), if_neg (by simp [decodeFileHeader, hsig]),
    if_neg (by simp only [decodeInfoHeader]; rcases hbit with h | h <;> simp [h, hcomp])]
  have hpix : readPixelData input (decodeFileHeader input).bfOffBits
      (strideOf (decodeInfoHeader input).biWidth ((decodeInfoHeader input).biBitCount / 8) *
        (decodeInfoHeader input).biHeight) = input.drop 54 := by
    have hoff₂ : (decodeFileHeader input).bfOffBits = 54 := hoff
    have hn : strideOf (decodeInfoHeader input).biWidth
        ((decodeInfoHeader input).biBitCount / 8) * (decodeInfoHeader input).biHeight =
        input.length - 54 := by
      show strideOf (readU32 input 18) (readU16 input 28 / 8) * readU32 input 22 =
        input.length - 54
      omega
    rw [hoff₂, hn]
    simp only [readPixelData]
    have hdl : (input.drop 54).length = input.length - 54 := by simp
    rw [← hdl, List.take_length, Nat.sub_self]
    simp
  rw [hpix, encodeFileHeader_decode input hbytes (by omega),
    encodeInfoHeader_decode input hbytes (by omega)]
  have hdd : (input.drop 14).drop 40 = input.drop 54 := List.drop_drop 40 14 input
  rw [← hdd, List.take_append_drop, List.take_append_drop]

/-- Witness for decodeEncode_roundtrip: the 58-byte stream rt54Input is
reproduced exactly. -/
theorem decodeEncode_roundtrip_witness :
    decodeEncodeNoTransform rt54Input = Except.ok rt54Input :=
  decodeEncode_roundtrip rt54Input (by decide) (by decide) (Or.inl (by decide))
    (by decide) (by decide) (by decide)

theorem getElem_eq_getD (l : List Nat) (n : Nat) (h : n < l.length) :
    l[n] = l.getD n 0 := by
  simp [List.getD_eq_getElem?_getD, List.getElem?_eq_getElem h]

theorem quantizeChannel_idem (factor v : Nat) (hf : 0 < factor) :
    quantizeChannel factor (quantizeChannel factor v) = quantizeChannel factor v := by
  simp [quantizeChannel, Nat.mul_div_cancel _ hf]

theorem quantize_factor_pos (bits : Nat) (hb1 : 1 ≤ bits) (hb8 : bits ≤ 8) :
    0 < 255 / (2 ^ bits - 1) := by
  have h1 : 2 ^ 1 ≤ 2 ^ bits := Nat.pow_le_pow_right (by omega) hb1
  have h2 : 2 ^ bits ≤ 2 ^ 8 := Nat.pow_le_pow_right (by omega) hb8
  have h3 : (2 : Nat) ^ 1 = 2 := Nat.pow_one 2
  have h4 : (2 : Nat) ^ 8 = 256 := by norm_num
  exact Nat.div_pos (by omega) (by omega)

/-- Claim C1: for every buffer and every quantization depth bits in
[1, 8], quantizePixelData succeeds and maps every color channel byte v
(the first three bytes of each pixel of each row) to
(v / step) * step with step = 255 / (2 ^ bits - 1); and for bits = 1
(step 255) the channel map sends every byte below 255 to 0 and the byte
255 to 255. -/
theorem quantizePixelData_correct (pixelData : List Nat)
    (bytesPerPixel width height rowSize bits : Nat)
    (hb1 : 1 ≤ bits) (hb8 : bits ≤ 8)
    (hbpp : 3 ≤ bytesPerPixel) (hrs : width * bytesPerPixel ≤ rowSize) :
    ∃ out, quantizePixelData pixelData bytesPerPixel width height rowSize bits = some out ∧
      (∀ y < height, ∀ x < width, ∀ b < 3,
        out.getD (y * rowSize + x * bytesPerPixel + b) 0 =
          pixelData.getD (y * rowSize + x * bytesPerPixel + b) 0 / (255 / (2 ^ bits - 1)) *
            (255 / (2 ^ bits - 1))) ∧
      (∀ v < 256, quantizeChannel (255 / (2 ^ 1 - 1)) v = if v = 255 then 255 else 0) := by
  have hfac := quantize_factor_pos bits hb1 hb8
  have hlev : ¬(2 ^ bits - 1 = 0) := by
    have h1 : 2 ^ 1 ≤ 2 ^ bits := Nat.pow_le_pow_right (by omega) hb1
    have h3 : (2 : Nat) ^ 1 = 2 := Nat.pow_one 2
    omega
  refine ⟨quantizeLoop (255 / (2 ^ bits - 1)) bytesPerPixel width height rowSize pixelData,
    ?_, ?_, ?_⟩
  · simp only [quantizePixelData]
    rw [if_neg hlev, if_neg (by omega)]
  · intro y hy x hx b hb
    rw [quantizeLoop_getD_hit _ _ _ _ _ _ hbpp hrs y x b hy hx hb]
    rfl
  · intro v hv
    have h1 : (255 : Nat) / (2 ^ 1 - 1) = 255 := by norm_num
    rw [h1]
    by_cases hv255 : v = 255
    · subst hv255
      simp [quantizeChannel]
    · rw [if_neg hv255]
      have h2 : v / 255 = 0 := Nat.div_eq_of_lt (by omega)
      simp [quantizeChannel, h2]

/-- Witness for quantizePixelData_correct at a 1 x 1, 24-bit buffer with
one padding byte and bits = 1. -/
theorem quantizePixelData_correct_witness :
    ∃ out, quantizePixelData [255, 7, 0, 9] 3 1 1 4 1 = some out ∧
      (∀ y < 1, ∀ x < 1, ∀ b < 3,
        out.getD (y * 4 + x * 3 + b) 0 =
          [255, 7, 0, 9].getD (y * 4 + x * 3 + b) 0 / (255 / (2 ^ 1 - 1)) *
            (255 / (2 ^ 1 - 1))) ∧
      (∀ v < 256, quantizeChannel (255 / (2 ^ 1 - 1)) v = if v = 255 then 255 else 0) :=
  quantizePixelData_correct [255, 7, 0, 9] 3 1 1 4 1 (by decide) (by decide)
    (by decide) (by decide)

/-- Claim C10: quantizePixelData with a fixed depth bits in [1, 8] is
idempotent: a second application returns the first result unchanged. -/
theorem quantizePixelData_idempotent (pixelData out : List Nat)
    (bytesPerPixel width height rowSize bits : Nat)
    (hb1 : 1 ≤ bits) (hb8 : bits ≤ 8)
    (hbpp : 3 ≤ bytesPerPixel) (hrs : width * bytesPerPixel ≤ rowSize)
    (hout : quantizePixelData pixelData bytesPerPixel width height rowSize bits = some out) :
    quantizePixelData out bytesPerPixel width height rowSize bits = some out := by
  have hfac := quantize_factor_pos bits hb1 hb8
  have hlev : ¬(2 ^ bits - 1 = 0) := by
    have h1 : 2 ^ 1 ≤ 2 ^ bits := Nat.pow_le_pow_right (by omega) hb1
    have h3 : (2 : Nat) ^ 1 = 2 := Nat.pow_one 2
    omega
  simp only [quantizePixelData, if_neg hlev] at hout ⊢
  rw [if_neg (by omega)] at hout ⊢
  have hout₂ : out =
      quantizeLoop (255 / (2 ^ bits - 1)) bytesPerPixel width height rowSize pixelData :=
    (Option.some.inj hout).symm
  refine congrArg some (List.ext_getElem (by rw [quantizeLoop_length]) ?_)
  intro n h1 h2
  rw [getElem_eq_getD _ _ h1, getElem_eq_getD _ _ h2]
  by_cases hq : ∃ y, y < height ∧ ∃ x, x < width ∧ ∃ b, b < 3 ∧
    n = y * rowSize + x * bytesPerPixel + b
  · obtain ⟨y, hy, x, hx, b, hb, rfl⟩ := hq
    rw [quantizeLoop_getD_hit _ _ _ _ _ _ hbpp hrs y x b hy hx hb, hout₂,
      quantizeLoop_getD_hit _ _ _ _ _ _ hbpp hrs y x b hy hx hb]
    exact quantizeChannel_idem _ _ hfac
  · push_neg at hq
    exact quantizeLoop_getD_miss _ _ _ _ _ _ _ hq

/-- Witness for quantizePixelData_idempotent: requantizing the bits = 1
result of the buffer [255, 7, 0, 9] leaves it unchanged. -/
theorem quantizePixelData_idempotent_witness :
    quantizePixelData [255, 0, 0, 9] 3 1 1 4 1 = some [255, 0, 0, 9] :=
  quantizePixelData_idempotent [255, 7, 0, 9] [255, 0, 0, 9] 3 1 1 4 1
    (by decide) (by decide) (by decide) (by decide) rfl

/-- Claim C3: flipHorizontally mirrors every row pixel-atomically: after
the flip, channel b of the pixel at column x of row y holds the former
channel b of the pixel at column width - 1 - x (for odd width the middle
column is its own mirror and is unchanged), and every padding byte (row
offsets from width * bytesPerPixel up to the stride) is unchanged. -/
theorem flipHorizontally_correct (pixelData : List Nat)
    (width height rowSize bytesPerPixel : Nat)
    (hrs : width * bytesPerPixel ≤ rowSize)
    (hlen : rowSize * height ≤ pixelData.length) :
    (∀ y < height, ∀ x < width, ∀ b < bytesPerPixel,
      (flipHorizontally pixelData width height rowSize bytesPerPixel).getD
          (y * rowSize + x * bytesPerPixel + b) 0 =
        pixelData.getD (y * rowSize + (width - 1 - x) * bytesPerPixel + b) 0) ∧
    (∀ y < height, ∀ o, width * bytesPerPixel ≤ o → o < rowSize →
      (flipHorizontally pixelData width height rowSize bytesPerPixel).getD
          (y * rowSize + o) 0 =
        pixelData.getD (y * rowSize + o) 0) := by
  constructor
  · intro y hy x hx b hb
    have hmirror : width - 1 - x = width - x - 1 := by omega
    rw [hmirror]
    exact flipHorizontally_getD width height rowSize bytesPerPixel pixelData hrs hlen
      y x b hy hx hb
  · intro y hy o ho₁ ho₂
    exact flipHorizontally_getD_other _ _ _ _ _ hrs _
      (fun y₂ hy₂ c hc b hb =>
        padpos_ne width bytesPerPixel rowSize y o y₂ c b hrs ho₁ ho₂ hc hb)

/-- Witness for flipHorizontally_correct on a 2 x 1, 24-bit row with two
padding bytes. -/
theorem flipHorizontally_correct_witness :
    (∀ y < 1, ∀ x < 2, ∀ b < 3,
      (flipHorizontally [1, 2, 3, 4, 5, 6, 0, 9] 2 1 8 3).getD
          (y * 8 + x * 3 + b) 0 =
        [1, 2, 3, 4, 5, 6, 0, 9].getD (y * 8 + (2 - 1 - x) * 3 + b) 0) ∧
    (∀ y < 1, ∀ o, 2 * 3 ≤ o → o < 8 →
      (flipHorizontally [1, 2, 3, 4, 5, 6, 0, 9] 2 1 8 3).getD (y * 8 + o) 0 =
        [1, 2, 3, 4, 5, 6, 0, 9].getD (y * 8 + o) 0) :=
  flipHorizontally_correct [1, 2, 3, 4, 5, 6, 0, 9] 2 1 8 3 (by decide) (by decide)

/-- Claim C6, counterexample: with an overlapping layout (width 2,
bytesPerPixel 1, but stride only 1) the rows share bytes and the double
flip does not restore the buffer, although every access is inside the
buffer.  The claim quantifies over arbitrary width, height, stride and
bytes-per-pixel, so it fails on this instance. -/
theorem flipHorizontally_not_involutive :
    flipHorizontally (flipHorizontally [1, 2, 3] 2 2 1 1) 2 2 1 1 ≠ [1, 2, 3] := by
  decide

/-- Claim C6, amended: for every buffer whose rows do not overlap
(width * bytesPerPixel ≤ stride, as with the BMP stride of any real pixel
buffer) and which holds the full stride * height bytes, flipHorizontally
is an involution. -/
theorem flipHorizontally_involutive (pixelData : List Nat)
    (width height rowSize bytesPerPixel : Nat)
    (hrs : width * bytesPerPixel ≤ rowSize)
    (hlen : rowSize * height ≤ pixelData.length) :
    flipHorizontally (flipHorizontally pixelData width height rowSize bytesPerPixel)
      width height rowSize bytesPerPixel = pixelData := by
  have hlen₁ : (flipHorizontally pixelData width height rowSize bytesPerPixel).length =
      pixelData.length := flipHorizontally_length _ _ _ _ _
  refine List.ext_getElem (by rw [flipHorizontally_length, hlen₁]) ?_
  intro n h1 h2
  rw [getElem_eq_getD _ _ h1, getElem_eq_getD _ _ h2]
  by_cases hq : ∃ y, y < height ∧ ∃ c, c < width ∧ ∃ b, b < bytesPerPixel ∧
    n = y * rowSize + c * bytesPerPixel + b
  · obtain ⟨y, hy, c, hc, b, hb, rfl⟩ := hq
    rw [flipHorizontally_getD _ _ _ _ _ hrs (by omega) y c b hy hc hb]
    have hc₂ : width - c - 1 < width := by omega
    rw [flipHorizontally_getD _ _ _ _ _ hrs hlen y (width - c - 1) b hy hc₂ hb]
    have hcc : width - (width - c - 1) - 1 = c := by omega
    rw [hcc]
  · push_neg at hq
    rw [flipHorizontally_getD_other _ _ _ _ _ hrs _ hq,
      flipHorizontally_getD_other _ _ _ _ _ hrs _ hq]

/-- Witness for flipHorizontally_involutive on a 2 x 1, 24-bit row. -/
theorem flipHorizontally_involutive_witness :
    flipHorizontally (flipHorizontally [1, 2, 3, 4, 5, 6, 0, 9] 2 1 8 3) 2 1 8 3 =
      [1, 2, 3, 4, 5, 6, 0, 9] :=
  flipHorizontally_involutive [1, 2, 3, 4, 5, 6, 0, 9] 2 1 8 3 (by decide) (by decide)

/-- Claim C2: for every in-bounds crop rectangle, cropImage returns a
buffer of croppedRowSize * cropHeight bytes (croppedRowSize the 4-byte
aligned stride of cropWidth) whose pixel (i, j) equals the source pixel
(x + i, y + j), channel by channel. -/
theorem cropImage_correct (src : List Nat)
    (originalWidth originalHeight bytesPerPixel rowSize x y cropWidth cropHeight : Nat)
    (hx : x + cropWidth ≤ originalWidth) (hy : y + cropHeight ≤ originalHeight)
    (hrs : originalWidth * bytesPerPixel ≤ rowSize)
    (hlen : rowSize * originalHeight ≤ src.length) :
    (cropImage src originalWidth originalHeight bytesPerPixel rowSize x y
        cropWidth cropHeight).length = strideOf cropWidth bytesPerPixel * cropHeight ∧
    (∀ j < cropHeight, ∀ i < cropWidth, ∀ b < bytesPerPixel,
      (cropImage src originalWidth originalHeight bytesPerPixel rowSize x y
          cropWidth cropHeight).getD
          (j * strideOf cropWidth bytesPerPixel + i * bytesPerPixel + b) 0 =
        src.getD ((y + j) * rowSize + (x + i) * bytesPerPixel + b) 0) := by
  have hcrs := strideOf_ge cropWidth bytesPerPixel
  have hxw : x * bytesPerPixel + cropWidth * bytesPerPixel ≤
      originalWidth * bytesPerPixel := by
    have h1 : (x + cropWidth) * bytesPerPixel ≤ originalWidth * bytesPerPixel :=
      Nat.mul_le_mul_right bytesPerPixel hx
    have h2 : (x + cropWidth) * bytesPerPixel =
        x * bytesPerPixel + cropWidth * bytesPerPixel := Nat.add_mul x cropWidth bytesPerPixel
    omega
  have hsrcB : ∀ j < cropHeight,
      (y + j) * rowSize + x * bytesPerPixel + cropWidth * bytesPerPixel ≤ src.length := by
    intro j hj
    have h1 : (y + j + 1) * rowSize ≤ originalHeight * rowSize :=
      Nat.mul_le_mul_right rowSize (by omega)
    have h2 : (y + j + 1) * rowSize = (y + j) * rowSize + rowSize :=
      Nat.succ_mul (y + j) rowSize
    have h3 : originalHeight * rowSize = rowSize * originalHeight :=
      Nat.mul_comm originalHeight rowSize
    omega
  have hdst : cropHeight * strideOf cropWidth bytesPerPixel ≤
      (List.replicate (strideOf cropWidth bytesPerPixel * cropHeight) 0).length := by
    have h1 : cropHeight * strideOf cropWidth bytesPerPixel =
        strideOf cropWidth bytesPerPixel * cropHeight :=
      Nat.mul_comm cropHeight (strideOf cropWidth bytesPerPixel)
    simp [h1]
  constructor
  · simp only [cropImage]
    rw [cropRows_length _ _ _ _ _ _ _ _ _ hcrs hdst hsrcB]
    simp
  · intro j hj i hi b hb
    have ho : i * bytesPerPixel + b < cropWidth * bytesPerPixel :=
      col_offset_lt cropWidth bytesPerPixel i b hi hb
    have hidx₁ : j * strideOf cropWidth bytesPerPixel + i * bytesPerPixel + b =
        j * strideOf cropWidth bytesPerPixel + (i * bytesPerPixel + b) := by omega
    simp only [cropImage]
    rw [hidx₁, cropRows_getD_mid _ _ _ _ _ _ _ _ _ hcrs hdst hsrcB j
      (i * bytesPerPixel + b) hj ho]
    have hidx₂ : (y + j) * rowSize + x * bytesPerPixel + (i * bytesPerPixel + b) =
        (y + j) * rowSize + (x + i) * bytesPerPixel + b := by
      have := Nat.add_mul x i bytesPerPixel
      omega
    rw [hidx₂]

/-- Witness for cropImage_correct: cropping the bottom-right 1 x 1 region
out of a 2 x 2, 24-bit buffer. -/
theorem cropImage_correct_witness :
    (cropImage [1, 2, 3, 4, 5, 6, 0, 0, 7, 8, 9, 10, 11, 12, 0, 0]
        2 2 3 8 1 1 1 1).length = strideOf 1 3 * 1 ∧
    (∀ j < 1, ∀ i < 1, ∀ b < 3,
      (cropImage [1, 2, 3, 4, 5, 6, 0, 0, 7, 8, 9, 10, 11, 12, 0, 0]
          2 2 3 8 1 1 1 1).getD (j * strideOf 1 3 + i * 3 + b) 0 =
        [1, 2, 3, 4, 5, 6, 0, 0, 7, 8, 9, 10, 11, 12, 0, 0].getD
          ((1 + j) * 8 + (1 + i) * 3 + b) 0) :=
  cropImage_correct [1, 2, 3, 4, 5, 6, 0, 0, 7, 8, 9, 10, 11, 12, 0, 0]
    2 2 3 8 1 1 1 1 (by decide) (by decide) (by decide) (by decide)

end BMP
